import Mathlib

/-!
# Verification of the flowgit stack consistency engine

Shallow embedding of the stack registry (`src/lib/config.ts`), the sync
engine (`src/commands/sync.ts`), the submit engine
(`src/commands/submit.ts`), the restack engine, and the relevant parts of
the git/gh wrappers (`src/lib/git.ts`, `src/lib/gh.ts`).

Conventions of the embedding:
* Branch names are Lean `String`s.
* JavaScript `null`-able strings become `Option String`.
* The JavaScript idiom `x || trunk` (falsy fallback, where both `null` and
  the empty string are falsy) is embedded as `jsOr`.
* External git/gh state queried through the wrappers (branch existence,
  merge status, remote refs, ahead/behind counts) is supplied through
  explicit environment records; each field is the *result* of the wrapper
  call, with wrapper-internal `try/catch` fallbacks embedded explicitly
  where a claim depends on them.
* The unbounded `while` loop of `getStackToTrunk` is embedded with an
  explicit fuel parameter; `none` means the fuel ran out before the walk
  stopped (the JS loop would still be running).
-/

namespace Flowgit

/-- JavaScript `o || d` for a nullable string `o`: `null` and the empty
string are falsy and select the fallback `d`. -/
def jsOr (o : Option String) (d : String) : String :=
  match o with
  | none => d
  | some s => if s = "" then d else s

/-! ## Stack registry (`src/lib/config.ts`), parsed view

The registry persists a tracked-branch list and one parent pointer per
branch in git config.  This structure is the parsed view of that key
space: `tracked` is the comma-split tracked list, `parent` maps a branch
name to the value of its `flowgit.branch.<name>.parent` key (`none` when
the key is unset).  The raw comma-joined persistence of the tracked list
is embedded separately below for the round-trip claim. -/
structure Registry where
  tracked : List String
  parent : String → Option String

/-- `config.getParentBranch`: read the per-branch parent key. -/
def getParentBranch (reg : Registry) (branchName : String) : Option String :=
  reg.parent branchName

/-- `config.setParentBranch`: write the per-branch parent key. -/
def setParentBranch (reg : Registry) (branchName parentBranch : String) : Registry :=
  { reg with parent := fun n => if n = branchName then some parentBranch else reg.parent n }

/-- `config.getChildren`: tracked branches whose parent pointer names
`branchName` (`tracked.filter(branch => getParentBranch(branch) === branchName)`). -/
def getChildren (reg : Registry) (branchName : String) : List String :=
  reg.tracked.filter (fun b => getParentBranch reg b = some branchName)

/-- `config.removeTrackedBranch`, parsed view: drop the name from the
tracked list (`tracked.filter(b => b !== branchName)`). -/
def removeTracked (reg : Registry) (branchName : String) : Registry :=
  { reg with tracked := reg.tracked.filter (fun b => b ≠ branchName) }

/-- `config.addTrackedBranch`, parsed view: append the name unless it is
already present (`if (!tracked.includes(branchName)) tracked.push(...)`). -/
def addTracked (reg : Registry) (branchName : String) : Registry :=
  if branchName ∈ reg.tracked then reg
  else { reg with tracked := reg.tracked ++ [branchName] }

/-- Loop body of `config.getStackToTrunk`.  `stack` is the accumulated
array (the JS `unshift` prepends, so the accumulator already holds the
later, leaf-ward elements).  `fuel` bounds the number of iterations of
the JS `while (current && current !== trunk)` loop; `none` means the
bound was hit while the loop was still running. -/
def stackLoop (reg : Registry) (trunk : String) :
    Nat → String → List String → Option (List String)
  | 0, _, _ => none
  | fuel + 1, current, stack =>
    if current = "" ∨ current = trunk then some stack
    else
      match getParentBranch reg current with
      | none => some (current :: stack)
      | some p =>
        if p = "" ∨ p = trunk then some (current :: stack)
        else stackLoop reg trunk fuel p (current :: stack)

/-- `config.getStackToTrunk(branchName, trunk)`: walk parent pointers from
`branchName` toward `trunk`, prepending each hop; stops at trunk or at a
missing (or falsy) parent.  Fuel-bounded embedding of the `while` loop. -/
def getStackToTrunk (reg : Registry) (branchName : String) (trunk : String)
    (fuel : Nat) : Option (List String) :=
  stackLoop reg trunk fuel branchName []

/-- `config.getTrunkBranch()`: hardcoded to `main`. -/
def getTrunkBranch : String := "main"

/-- The walk of `getStackToTrunk` starting at `current` stops (trunk
reached, or a missing/falsy parent found) within `n` iterations. -/
def stopsWithin (reg : Registry) (trunk : String) : Nat → String → Bool
  | 0, _ => false
  | n + 1, current =>
    if current = "" ∨ current = trunk then true
    else
      match getParentBranch reg current with
      | none => true
      | some p =>
        if p = "" ∨ p = trunk then true
        else stopsWithin reg trunk n p

/-- Concrete registry: `feature` stacked directly on `main`. -/
def regEx : Registry :=
  { tracked := ["feature"]
    parent := fun n => if n = "feature" then some "main" else none }

section StackLemmas

variable {reg : Registry} {trunk : String}

/-- A successful walk only ever prepends to the accumulator: the result
extends `current :: stack`. -/
lemma stackLoop_extends : ∀ {fuel : Nat} {c : String} {s P : List String},
    stackLoop reg trunk fuel c s = some P → c ≠ "" → c ≠ trunk →
    ∃ t, P = t ++ c :: s := by
  intro fuel
  induction fuel with
  | zero => intro c s P h _ _; simp [stackLoop] at h
  | succ n ih =>
    intro c s P h hc hct
    rw [stackLoop] at h
    split at h
    · next hcs => exact absurd hcs (by simp [hc, hct])
    · split at h
      · exact ⟨[], by simpa using h.symm⟩
      · next p hp =>
        split at h
        · exact ⟨[], by simpa using h.symm⟩
        · next hstop =>
          push_neg at hstop
          obtain ⟨t, ht⟩ := ih h hstop.1 hstop.2
          exact ⟨t ++ [p], by simpa using ht⟩

/-- A successful walk preserves the parent-pointer chain property of the
accumulator (each element's recorded parent is the element before it). -/
lemma stackLoop_chain : ∀ {fuel : Nat} {c : String} {s P : List String},
    stackLoop reg trunk fuel c s = some P → c ≠ "" → c ≠ trunk →
    List.Chain' (fun a b => getParentBranch reg b = some a) (c :: s) →
    List.Chain' (fun a b => getParentBranch reg b = some a) P := by
  intro fuel
  induction fuel with
  | zero => intro c s P h _ _ _; simp [stackLoop] at h
  | succ n ih =>
    intro c s P h hc hct hch
    rw [stackLoop] at h
    split at h
    · next hcs => exact absurd hcs (by simp [hc, hct])
    · split at h
      · rwa [Option.some_inj.mp h] at hch
      · next p hp =>
        split at h
        · rwa [Option.some_inj.mp h] at hch
        · next hstop =>
          push_neg at hstop
          exact ih h hstop.1 hstop.2 (List.Chain'.cons hp hch)

/-- Walks that stop within `n` iterations complete on any fuel of at
least `n`. -/
lemma stackLoop_isSome : ∀ {n fuel : Nat} {c : String} {s : List String},
    stopsWithin reg trunk n c = true → n ≤ fuel →
    (stackLoop reg trunk fuel c s).isSome = true := by
  intro n
  induction n with
  | zero => intro fuel c s h _; simp [stopsWithin] at h
  | succ n ih =>
    intro fuel c s h hf
    obtain ⟨f, rfl⟩ : ∃ f, fuel = f + 1 :=
      ⟨fuel - 1, (Nat.succ_pred_eq_of_pos (Nat.lt_of_lt_of_le (Nat.succ_pos n) hf)).symm⟩
    rw [stopsWithin] at h
    rw [stackLoop]
    by_cases hc : c = "" ∨ c = trunk
    · rw [if_pos hc]; rfl
    · rw [if_neg hc] at h ⊢
      rcases hp : getParentBranch reg c with _ | p <;> rw [hp] at h <;>
        dsimp only at h ⊢
      · rfl
      · by_cases hstop : p = "" ∨ p = trunk
        · rw [if_pos hstop]; rfl
        · rw [if_neg hstop] at h ⊢
          exact ih h (Nat.le_of_succ_le_succ hf)

end StackLemmas

/-- **C5 (amended).** For every branch `B` other than trunk with a
non-empty name, a completed `stackToTrunk(B)` walk returns a non-empty
path `P` whose last element is `B` and in which every adjacent pair
`(P[i], P[i+1])` satisfies `getParent(P[i+1]) == P[i]`. -/
theorem getStackToTrunk_path (reg : Registry) (B trunk : String) (fuel : Nat)
    (P : List String) (hB : B ≠ "") (hBt : B ≠ trunk)
    (h : getStackToTrunk reg B trunk fuel = some P) :
    P ≠ [] ∧ P.getLast? = some B ∧
      List.Chain' (fun a b => getParentBranch reg b = some a) P := by
  obtain ⟨t, rfl⟩ := stackLoop_extends h hB hBt
  refine ⟨by simp, ?_, ?_⟩
  · exact List.getLast?_concat t
  · exact stackLoop_chain h hB hBt (List.chain'_singleton B)

/-- Witness for C5's amended theorem at a concrete input. -/
theorem getStackToTrunk_path_witness :
    getStackToTrunk regEx "feature" "main" 5 = some ["feature"] ∧
    (["feature"] ≠ ([] : List String) ∧
      (["feature"] : List String).getLast? = some "feature" ∧
      List.Chain' (fun a b => getParentBranch regEx b = some a) ["feature"]) :=
  ⟨rfl, getStackToTrunk_path regEx "feature" "main" 5 ["feature"]
    (by decide) (by decide) rfl⟩

/-- **C5 counterexample.** At `B = trunk` the walk returns the empty
list, so the claim as stated (non-empty for *every* branch `B`) fails. -/
theorem getStackToTrunk_trunk_empty :
    getStackToTrunk regEx "main" "main" 5 = some [] ∧
    ¬ (([] : List String) ≠ [] ∧ ([] : List String).getLast? = some "main") := by
  exact ⟨rfl, by simp⟩

/-- **C8.** `stackToTrunk` terminates for every start branch whose walk
stops within `n` steps (in particular, for acyclic pointer chains that
reach trunk within `|Tracked Set|` steps): any fuel of at least `n`
completes.  Moreover a missing parent is a stopping point: a non-trunk
branch with no recorded parent yields the one-element path. -/
theorem getStackToTrunk_terminates (reg : Registry) (trunk B : String)
    (n fuel : Nat) (hstop : stopsWithin reg trunk n B = true) (hfuel : n ≤ fuel) :
    (getStackToTrunk reg B trunk fuel).isSome = true ∧
    (getParentBranch reg B = none → B ≠ "" → B ≠ trunk →
      getStackToTrunk reg B trunk fuel = some [B]) := by
  refine ⟨stackLoop_isSome hstop hfuel, fun hp hB hBt => ?_⟩
  obtain ⟨f, rfl⟩ : ∃ f, fuel = f + 1 := by
    rcases n with _ | m
    · simp [stopsWithin] at hstop
    · exact ⟨fuel - 1, (Nat.succ_pred_eq_of_pos
        (Nat.lt_of_lt_of_le (Nat.succ_pos m) hfuel)).symm⟩
  rw [getStackToTrunk, stackLoop, if_neg (by simp [hB, hBt]), hp]

/-- Witness for C8 at a concrete input. -/
theorem getStackToTrunk_terminates_witness :
    stopsWithin regEx "main" 2 "feature" = true ∧ 2 ≤ 5 ∧
    (getStackToTrunk regEx "feature" "main" 5).isSome = true :=
  ⟨by decide, by decide,
    (getStackToTrunk_terminates regEx "main" "feature" 2 5 (by decide) (by decide)).1⟩

/-! ## Git wrapper primitives (`src/lib/git.ts`)

Each wrapper shells out through the executor with a command string of the
form `git <args>`.  We embed the command strings themselves where a claim
is about which command is issued, and the wrappers' catch-to-default
behaviour where a claim depends on it. -/

/-- The command string `executor.exec` receives for `execGit(command)`. -/
def execGit (command : String) : String := "git " ++ command

/-- `git.fetch()`: the exact command issued (`execGit('fetch origin')`). -/
def fetchCmd : String := execGit "fetch origin"

/-- `git.push(branchName, setUpstream, force)`: the command string built
by appending ` -u origin <name>` when `setUpstream` and
` --force-with-lease` when `force`. -/
def pushCmd (branchName : String) (setUpstream force : Bool) : String :=
  let c := "push"
  let c := if setUpstream then c ++ " -u origin " ++ branchName else c
  let c := if force then c ++ " --force-with-lease" else c
  execGit c

/-- `needle` is a starting segment of `hay` (character lists). -/
def strStartsWith : List Char → List Char → Bool
  | [], _ => true
  | _ :: _, [] => false
  | a :: as, b :: bs => a = b && strStartsWith as bs

/-- `hay` has `needle` as a contiguous substring (character lists). -/
def strHasSub : List Char → List Char → Bool
  | [], needle => needle.isEmpty
  | c :: rest, needle => strStartsWith needle (c :: rest) || strHasSub rest needle

/-- JavaScript `hay.includes(needle)`. -/
def strContains (hay needle : String) : Bool :=
  strHasSub hay.data needle.data

/-- `git.isMerged(branchName, target)`: runs `git branch --merged <target>`
and tests `merged.includes(branchName)`; a failed command is caught and
yields `false`.  `mergedExec` is the command's output (`none` = the
command failed). -/
def isMerged (mergedExec : Option String) (branchName : String) : Bool :=
  match mergedExec with
  | none => false
  | some out => strContains out branchName

/-! ## Sync engine (`src/commands/sync.ts`) -/

/-- An entry of the batched PR-status map (`gh.getAllPRStatuses()`). -/
structure PRStatus where
  state : String
  merged : Bool
deriving DecidableEq

/-- Per-branch external state consumed by the sync loop.  Every field is
the result of the corresponding wrapper call for this branch. -/
structure BranchEnv where
  /-- `git.branchExists(branchName)` (catch → false). -/
  branchExists : Bool
  /-- Output of `git branch --merged <trunk>` inside `git.isMerged`
  (`none` = the underlying command failed, which `isMerged` absorbs). -/
  mergedExec : Option String
  /-- `prStatuses.get(branchName)` from the batched tracker query. -/
  prStatus : Option PRStatus
  /-- `git.hasUpstream(branchName)`. -/
  hasUpstream : Bool
  /-- `git.hasRemote(branchName)` (catch → false). -/
  hasRemote : Bool
  /-- `ahead` from `git.compareWithRemote(branchName)`. -/
  ahead : Nat
  /-- `behind` from `git.compareWithRemote(branchName)`. -/
  behind : Nat
  /-- Whether the fast-forward (`checkout` + `pull`) succeeds. -/
  ffOk : Bool
deriving DecidableEq

/-- The outcome of the sync loop body for one tracked branch. -/
inductive Outcome where
  | dropped
  | merged
  | closed
  | fastForwarded
  | diverged
  | untouched
deriving DecidableEq, Repr

/-- The tracker map entry says merged
(`prStatus.merged || prStatus.state === 'MERGED'`). -/
def prSaysMerged (env : BranchEnv) : Bool :=
  match env.prStatus with
  | some ps => ps.merged || ps.state == "MERGED"
  | none => false

/-- The tracker map entry says closed (`prStatus.state === 'CLOSED'`). -/
def prSaysClosed (env : BranchEnv) : Bool :=
  match env.prStatus with
  | some ps => ps.state == "CLOSED"
  | none => false

/-- Steps 3-4 of the loop body: remote-deletion heuristic, then
ahead/behind comparison and in-place fast-forward. -/
def classifyRemote (env : BranchEnv) : Outcome :=
  if env.hasUpstream && !env.hasRemote then .merged
  else if env.hasRemote then
    if env.behind > 0 && env.ahead == 0 then
      (if env.ffOk then .fastForwarded else .diverged)
    else if env.behind > 0 && env.ahead > 0 then .diverged
    else .untouched
  else .untouched

/-- The sync loop body (`sync.ts` lines 65-120) for one tracked branch:
missing ref, local merge detection, tracker state, remote-deletion
heuristic, fast-forward — first match wins. -/
def classifyBranch (branchName : String) (env : BranchEnv) : Outcome :=
  if !env.branchExists then .dropped
  else if isMerged env.mergedExec branchName then .merged
  else
    match env.prStatus with
    | some ps =>
      if ps.merged || ps.state == "MERGED" then .merged
      else if ps.state == "CLOSED" then .closed
      else classifyRemote env
    | none => classifyRemote env

/-- The per-group result lists accumulated by the sync loop
(`mergedBranches`, `closedBranches`, `divergedBranches`, the untracked
drops, and the fast-forwarded count's underlying branches). -/
structure SyncResult where
  dropped : List String
  merged : List String
  closed : List String
  fastForwarded : List String
  diverged : List String
deriving DecidableEq, Repr

/-- One iteration of the sync loop: push the branch onto the group its
classification selects (untouched branches are pushed nowhere). -/
def syncStep (env : String → BranchEnv) (r : SyncResult) (b : String) : SyncResult :=
  match classifyBranch b (env b) with
  | .dropped => { r with dropped := r.dropped ++ [b] }
  | .merged => { r with merged := r.merged ++ [b] }
  | .closed => { r with closed := r.closed ++ [b] }
  | .fastForwarded => { r with fastForwarded := r.fastForwarded ++ [b] }
  | .diverged => { r with diverged := r.diverged ++ [b] }
  | .untouched => r

/-- The analysis phase of `syncCommand`: iterate the loop body over
`config.getTrackedBranches().filter(b => b !== trunk)`. -/
def syncAnalyze (tracked : List String) (trunk : String)
    (env : String → BranchEnv) : SyncResult :=
  (tracked.filter (fun b => b ≠ trunk)).foldl (syncStep env) ⟨[], [], [], [], []⟩

/-- `syncCommand` up to the confirmation prompts: a failed trunk update
(`git.checkoutBranch(trunk)` / `git.pull()` throwing) exits the process
before any branch is analyzed; otherwise the analysis runs to
completion. -/
def syncRun (trunkUpdateOk : Bool) (tracked : List String) (trunk : String)
    (env : String → BranchEnv) : Option SyncResult :=
  if trunkUpdateOk then some (syncAnalyze tracked trunk env) else none

/-- The result list a (non-untouched) outcome accumulates into. -/
def SyncResult.group (r : SyncResult) : Outcome → List String
  | .dropped => r.dropped
  | .merged => r.merged
  | .closed => r.closed
  | .fastForwarded => r.fastForwarded
  | .diverged => r.diverged
  | .untouched => []

lemma syncStep_group (env : String → BranchEnv) (r : SyncResult) (b : String)
    (o : Outcome) (ho : o ≠ .untouched) :
    (syncStep env r b).group o =
      if classifyBranch b (env b) = o then r.group o ++ [b] else r.group o := by
  rcases hc : classifyBranch b (env b) <;> rcases o <;>
    simp_all [syncStep, SyncResult.group]

lemma syncFold_group_mem (env : String → BranchEnv) (o : Outcome)
    (ho : o ≠ .untouched) :
    ∀ (l : List String) (init : SyncResult) (b : String),
      (b ∈ (l.foldl (syncStep env) init).group o ↔
        b ∈ init.group o ∨ (b ∈ l ∧ classifyBranch b (env b) = o)) := by
  intro l
  induction l with
  | nil => intro init b; simp
  | cons a l ih =>
    intro init b
    rw [List.foldl_cons, ih]
    rw [syncStep_group env init a o ho]
    by_cases hca : classifyBranch a (env a) = o
    · rw [if_pos hca]
      simp only [List.mem_append, List.mem_cons, List.not_mem_nil, or_false]
      constructor
      · rintro ((h | rfl) | h)
        · exact Or.inl h
        · exact Or.inr ⟨Or.inl rfl, hca⟩
        · exact Or.inr ⟨Or.inr h.1, h.2⟩
      · rintro (h | ⟨rfl | hb, hcb⟩)
        · exact Or.inl (Or.inl h)
        · exact Or.inl (Or.inr rfl)
        · exact Or.inr ⟨hb, hcb⟩
    · rw [if_neg hca]
      simp only [List.mem_cons]
      constructor
      · rintro (h | h)
        · exact Or.inl h
        · exact Or.inr ⟨Or.inr h.1, h.2⟩
      · rintro (h | ⟨rfl | hb, hcb⟩)
        · exact Or.inl h
        · exact absurd hcb hca
        · exact Or.inr ⟨hb, hcb⟩

/-- Membership in a sync result group is exactly: tracked, not trunk, and
classified into that group. -/
lemma syncAnalyze_group_mem (tracked : List String) (trunk : String)
    (env : String → BranchEnv) (o : Outcome) (ho : o ≠ .untouched) (b : String) :
    b ∈ (syncAnalyze tracked trunk env).group o ↔
      b ∈ tracked ∧ b ≠ trunk ∧ classifyBranch b (env b) = o := by
  rw [syncAnalyze, syncFold_group_mem env o ho]
  rcases o <;>
    simp [SyncResult.group, List.mem_filter, and_assoc, decide_eq_true_iff]

/-- The loop body, re-expressed through the tracker-map predicates (the
two nested `if`s on `prStatus` flatten to this guard chain). -/
lemma classifyBranch_eq (b : String) (env : BranchEnv) :
    classifyBranch b env =
      if !env.branchExists then .dropped
      else if isMerged env.mergedExec b then .merged
      else if prSaysMerged env then .merged
      else if prSaysClosed env then .closed
      else classifyRemote env := by
  rcases h : env.prStatus with _ | ps <;>
    simp [classifyBranch, prSaysMerged, prSaysClosed, h]

/-- Concrete sync environment: a single branch, merged by local history. -/
def envC1 : String → BranchEnv := fun _ =>
  { branchExists := true, mergedExec := some "feature", prStatus := none
    hasUpstream := true, hasRemote := true, ahead := 0, behind := 0, ffOk := true }

/-- **C1.** During sync every tracked branch other than trunk is
classified by first-match precedence — missing ref (dropped), merged by
local history, tracker says merged, tracker says closed, previously
pushed but remote ref gone (merged), behind-only (fast-forwarded),
behind-and-ahead (diverged), otherwise untouched — and it lands in
exactly one outcome: membership in each result group is equivalent to
the classifier choosing that group. -/
theorem sync_classification (tracked : List String) (trunk : String)
    (env : String → BranchEnv) (b : String) (o : Outcome)
    (hb : b ∈ tracked) (hbt : b ≠ trunk) (ho : o = classifyBranch b (env b)) :
    (b ∈ (syncAnalyze tracked trunk env).dropped ↔ o = .dropped) ∧
    (b ∈ (syncAnalyze tracked trunk env).merged ↔ o = .merged) ∧
    (b ∈ (syncAnalyze tracked trunk env).closed ↔ o = .closed) ∧
    (b ∈ (syncAnalyze tracked trunk env).fastForwarded ↔ o = .fastForwarded) ∧
    (b ∈ (syncAnalyze tracked trunk env).diverged ↔ o = .diverged) ∧
    (o = .dropped ∨ o = .merged ∨ o = .closed ∨ o = .fastForwarded ∨
      o = .diverged ∨ o = .untouched) ∧
    ((env b).branchExists = false → o = .dropped) ∧
    ((env b).branchExists = true → isMerged (env b).mergedExec b = true →
      o = .merged) ∧
    ((env b).branchExists = true → isMerged (env b).mergedExec b = false →
      prSaysMerged (env b) = true → o = .merged) ∧
    ((env b).branchExists = true → isMerged (env b).mergedExec b = false →
      prSaysMerged (env b) = false → prSaysClosed (env b) = true →
      o = .closed) ∧
    ((env b).branchExists = true → isMerged (env b).mergedExec b = false →
      prSaysMerged (env b) = false → prSaysClosed (env b) = false →
      (env b).hasUpstream = true → (env b).hasRemote = false → o = .merged) ∧
    ((env b).branchExists = true → isMerged (env b).mergedExec b = false →
      prSaysMerged (env b) = false → prSaysClosed (env b) = false →
      (env b).hasRemote = true → (env b).behind > 0 → (env b).ahead = 0 →
      (env b).ffOk = true → o = .fastForwarded) ∧
    ((env b).branchExists = true → isMerged (env b).mergedExec b = false →
      prSaysMerged (env b) = false → prSaysClosed (env b) = false →
      (env b).hasRemote = true → (env b).behind > 0 → (env b).ahead > 0 →
      o = .diverged) ∧
    ((env b).branchExists = true → isMerged (env b).mergedExec b = false →
      prSaysMerged (env b) = false → prSaysClosed (env b) = false →
      (env b).hasRemote = true → (env b).behind = 0 → o = .untouched) ∧
    ((env b).branchExists = true → isMerged (env b).mergedExec b = false →
      prSaysMerged (env b) = false → prSaysClosed (env b) = false →
      (env b).hasUpstream = false → (env b).hasRemote = false →
      o = .untouched) := by
  subst ho
  have hmem : ∀ o : Outcome, o ≠ .untouched →
      (b ∈ (syncAnalyze tracked trunk env).group o ↔
        classifyBranch b (env b) = o) := by
    intro o ho'
    rw [syncAnalyze_group_mem tracked trunk env o ho' b]
    simp [hb, hbt]
  refine ⟨hmem .dropped (by decide), hmem .merged (by decide),
    hmem .closed (by decide), hmem .fastForwarded (by decide),
    hmem .diverged (by decide), ?_, ?_, ?_, ?_, ?_, ?_, ?_, ?_, ?_, ?_⟩
  · rcases classifyBranch b (env b) <;> simp
  · intro h1; rw [classifyBranch_eq]; simp [h1]
  · intro h1 h2; rw [classifyBranch_eq]; simp [h1, h2]
  · intro h1 h2 h3; rw [classifyBranch_eq]; simp [h1, h2, h3]
  · intro h1 h2 h3 h4; rw [classifyBranch_eq]; simp [h1, h2, h3, h4]
  · intro h1 h2 h3 h4 h5 h6
    rw [classifyBranch_eq]; simp [h1, h2, h3, h4, classifyRemote, h5, h6]
  · intro h1 h2 h3 h4 h5 h6 h7 h8
    rw [classifyBranch_eq]; simp [h1, h2, h3, h4, classifyRemote, h5, h6, h7, h8]
  · intro h1 h2 h3 h4 h5 h6 h7
    have h7' : (env b).ahead ≠ 0 := Nat.pos_iff_ne_zero.mp h7
    rw [classifyBranch_eq]
    simp [h1, h2, h3, h4, classifyRemote, h5, h6, h7, h7']
  · intro h1 h2 h3 h4 h5 h6
    rw [classifyBranch_eq]; simp [h1, h2, h3, h4, classifyRemote, h5, h6]
  · intro h1 h2 h3 h4 h5 h6
    rw [classifyBranch_eq]; simp [h1, h2, h3, h4, classifyRemote, h5, h6]

/-- Witness for C1 at a concrete input: a single locally merged branch. -/
theorem sync_classification_witness :
    "feature" ∈ (["feature"] : List String) ∧ "feature" ≠ "main" ∧
    Outcome.merged = classifyBranch "feature" (envC1 "feature") ∧
    ("feature" ∈ (syncAnalyze ["feature"] "main" envC1).merged ↔
      Outcome.merged = Outcome.merged) :=
  ⟨by decide, by decide, by decide,
    (sync_classification ["feature"] "main" envC1 "feature" Outcome.merged
      (by decide) (by decide) (by decide)).2.1⟩

/-- Concrete sync environment for C7's counterexample: `b1`'s local merge
query fails (`mergedExec = none`) and `b1` is otherwise in sync with its
remote; `b2` is merged. -/
def envC7x : String → BranchEnv := fun n =>
  if n = "b2" then
    { branchExists := true, mergedExec := some "b2", prStatus := none
      hasUpstream := false, hasRemote := false, ahead := 0, behind := 0, ffOk := true }
  else
    { branchExists := true, mergedExec := none, prStatus := none
      hasUpstream := true, hasRemote := true, ahead := 0, behind := 0, ffOk := true }

/-- **C7 counterexample.** A classification-query failure does *not*
degrade the branch to diverged: `b1`'s merged-into-trunk query fails
(`mergedExec = none`), `isMerged` absorbs the failure as `false`, and
`b1` ends untouched (not diverged) while the sync continues and still
classifies `b2`. -/
theorem sync_query_failure_not_diverged :
    (envC7x "b1").mergedExec = none ∧
    syncRun true ["b1", "b2"] "main" envC7x =
      some { dropped := [], merged := ["b2"], closed := [],
             fastForwarded := [], diverged := [] } ∧
    ("b1" ∈ (syncAnalyze ["b1", "b2"] "main" envC7x).diverged → False) := by
  refine ⟨rfl, by decide, by decide⟩

/-- Concrete sync environment: one branch behind its remote whose
fast-forward fails. -/
def envC7 : String → BranchEnv := fun _ =>
  { branchExists := true, mergedExec := some "", prStatus := none
    hasUpstream := false, hasRemote := true, ahead := 0, behind := 2, ffOk := false }

/-- **C7 (amended).** A trunk-update failure aborts the whole sync
before any branch is analyzed and is the only fatal step; a per-branch
fast-forward failure degrades that branch to diverged while processing
continues (every branch is still classified, from its own state only);
classification-query failures are absorbed by the wrappers' fallbacks
rather than degrading the branch to diverged. -/
theorem sync_failure_semantics (tracked : List String) (trunk : String)
    (env : String → BranchEnv) (b : String) (hb : b ∈ tracked) (hbt : b ≠ trunk) :
    syncRun false tracked trunk env = none ∧
    syncRun true tracked trunk env = some (syncAnalyze tracked trunk env) ∧
    ((env b).branchExists = true → isMerged (env b).mergedExec b = false →
      prSaysMerged (env b) = false → prSaysClosed (env b) = false →
      (env b).hasRemote = true → (env b).behind > 0 → (env b).ahead = 0 →
      (env b).ffOk = false → b ∈ (syncAnalyze tracked trunk env).diverged) ∧
    (b ∈ (syncAnalyze tracked trunk env).merged ↔
      classifyBranch b (env b) = .merged) := by
  refine ⟨rfl, rfl, ?_, ?_⟩
  · intro h1 h2 h3 h4 h5 h6 h7 h8
    have : classifyBranch b (env b) = .diverged := by
      rw [classifyBranch_eq]
      simp [h1, h2, h3, h4, classifyRemote, h5, h6, h7, h8, Nat.pos_iff_ne_zero]
    have hm := syncAnalyze_group_mem tracked trunk env .diverged (by decide) b
    exact hm.mpr ⟨hb, hbt, this⟩
  · have hm := syncAnalyze_group_mem tracked trunk env .merged (by decide) b
    rw [show (syncAnalyze tracked trunk env).merged =
      (syncAnalyze tracked trunk env).group .merged from rfl, hm]
    simp [hb, hbt]

/-- Witness for C7's amended theorem at a concrete input. -/
theorem sync_failure_semantics_witness :
    "bb" ∈ (["bb"] : List String) ∧ "bb" ≠ "main" ∧
    (envC7 "bb").ffOk = false ∧
    "bb" ∈ (syncAnalyze ["bb"] "main" envC7).diverged :=
  ⟨by decide, by decide, by decide,
    (sync_failure_semantics ["bb"] "main" envC7 "bb" (by decide)
      (by decide)).2.2.1 (by decide) (by decide) (by decide) (by decide)
      (by decide) (by decide) (by decide) (by decide)⟩

/-- **C9.** `git.fetch()` issues `git fetch origin` with no `--prune`
flag, even though the call site's own comment ("Fetch from origin with
--prune to remove stale remote tracking branches") and the sync test
suite (which asserts `git fetch --prune origin` is run) require the
pruning fetch: the code contradicts its own documentation and tests. -/
theorem fetch_lacks_prune :
    fetchCmd = "git fetch origin" ∧ fetchCmd ≠ "git fetch --prune origin" :=
  ⟨rfl, by decide⟩

/-! ## Deletion with tree surgery (`sync.ts` `deleteBranchCleanly` /
`adoptChildrenToGrandparent`) -/

/-- `adoptChildrenToGrandparent(branchToDelete, trunk)`: reparent every
direct child of the branch being deleted to that branch's own recorded
parent (`getParentBranch(branchToDelete) || trunk`). -/
def adoptChildrenToGrandparent (reg : Registry) (branchToDelete trunk : String) :
    Registry :=
  let children := getChildren reg branchToDelete
  if children = [] then reg
  else
    let grandparent := jsOr (getParentBranch reg branchToDelete) trunk
    children.foldl (fun r child => setParentBranch r child grandparent) reg

/-- `deleteBranchCleanly(branchName, currentBranch, trunk)`, registry
effects: adopt children to the grandparent, delete the git ref
(gracefully, falling back to a forced delete), then untrack.  `deleteOk`
says whether the graceful-or-forced ref deletion succeeded; when both
throw, the catch skips `removeTrackedBranch`.  (The checkout-to-trunk
step when the branch is currently checked out touches only the working
tree, not the registry.) -/
def deleteBranchCleanly (reg : Registry) (branchName currentBranch trunk : String)
    (deleteOk : Bool) : Registry :=
  let reg1 := adoptChildrenToGrandparent reg branchName trunk
  if deleteOk then removeTracked reg1 branchName else reg1

lemma foldl_setParent_parent (g : String) : ∀ (cs : List String) (reg : Registry)
    (n : String),
    getParentBranch (cs.foldl (fun r child => setParentBranch r child g) reg) n =
      if n ∈ cs then some g else getParentBranch reg n := by
  intro cs
  induction cs with
  | nil => intro reg n; simp
  | cons c cs ih =>
    intro reg n
    rw [List.foldl_cons, ih]
    by_cases hn : n ∈ cs
    · simp [hn]
    · by_cases hnc : n = c
      · simp [hn, hnc, getParentBranch, setParentBranch]
      · simp [hn, hnc, getParentBranch, setParentBranch]

lemma foldl_setParent_tracked (g : String) : ∀ (cs : List String) (reg : Registry),
    (cs.foldl (fun r child => setParentBranch r child g) reg).tracked =
      reg.tracked := by
  intro cs
  induction cs with
  | nil => intro reg; rfl
  | cons c cs ih => intro reg; rw [List.foldl_cons, ih]; rfl

lemma adopt_parent (reg : Registry) (X trunk n : String) :
    getParentBranch (adoptChildrenToGrandparent reg X trunk) n =
      if n ∈ getChildren reg X then some (jsOr (getParentBranch reg X) trunk)
      else getParentBranch reg n := by
  rw [adoptChildrenToGrandparent]
  by_cases hc : getChildren reg X = []
  · simp [hc]
  · simp only [hc, if_neg hc]
    exact foldl_setParent_parent _ _ reg n

lemma adopt_tracked (reg : Registry) (X trunk : String) :
    (adoptChildrenToGrandparent reg X trunk).tracked = reg.tracked := by
  rw [adoptChildrenToGrandparent]
  by_cases hc : getChildren reg X = []
  · simp [hc]
  · simp only [hc, if_neg hc]
    exact foldl_setParent_tracked _ _ reg

/-- **C2.** After sync deletes branch `X` (graceful-or-forced git delete
succeeded), every direct child of `X` points at `X`'s former recorded
parent (trunk when none was recorded); adoption is one level only (any
branch whose recorded parent was not `X` keeps its pointer, so a
grandchild is untouched); afterwards `getChildren(X)` is empty and `X`
is no longer tracked. -/
theorem deleteBranchCleanly_adoption (reg : Registry) (X currentBranch trunk : String)
    (hXt : X ≠ trunk) (hself : getParentBranch reg X ≠ some X)
    (hne : ∀ p, getParentBranch reg X = some p → p ≠ "") :
    (∀ C ∈ getChildren reg X,
      getParentBranch (deleteBranchCleanly reg X currentBranch trunk true) C =
        some (jsOr (getParentBranch reg X) trunk)) ∧
    (getParentBranch reg X = none → jsOr (getParentBranch reg X) trunk = trunk) ∧
    (∀ p, getParentBranch reg X = some p → jsOr (getParentBranch reg X) trunk = p) ∧
    (∀ n, getParentBranch reg n ≠ some X →
      getParentBranch (deleteBranchCleanly reg X currentBranch trunk true) n =
        getParentBranch reg n) ∧
    getChildren (deleteBranchCleanly reg X currentBranch trunk true) X = [] ∧
    X ∉ (deleteBranchCleanly reg X currentBranch trunk true).tracked := by
  have hparent : ∀ n, getParentBranch (deleteBranchCleanly reg X currentBranch trunk true) n =
      if n ∈ getChildren reg X then some (jsOr (getParentBranch reg X) trunk)
      else getParentBranch reg n := by
    intro n
    rw [deleteBranchCleanly]
    simp only [if_true]
    rw [show getParentBranch (removeTracked (adoptChildrenToGrandparent reg X trunk) X) n =
      getParentBranch (adoptChildrenToGrandparent reg X trunk) n from rfl]
    exact adopt_parent reg X trunk n
  have htracked : (deleteBranchCleanly reg X currentBranch trunk true).tracked =
      reg.tracked.filter (fun b => b ≠ X) := by
    rw [deleteBranchCleanly]
    simp only [if_true]
    rw [show (removeTracked (adoptChildrenToGrandparent reg X trunk) X).tracked =
      (adoptChildrenToGrandparent reg X trunk).tracked.filter (fun b => b ≠ X) from rfl]
    rw [adopt_tracked]
  have hgX : jsOr (getParentBranch reg X) trunk ≠ X := by
    rcases hp : getParentBranch reg X with _ | p
    · simpa [jsOr] using Ne.symm hXt
    · have hpe := hne p hp
      have hpX : p ≠ X := fun h => hself (h ▸ hp)
      simpa [jsOr, hpe] using hpX
  refine ⟨?_, ?_, ?_, ?_, ?_, ?_⟩
  · intro C hC
    rw [hparent C, if_pos hC]
  · intro hp; simp [jsOr, hp]
  · intro p hp; simp [jsOr, hp, hne p hp]
  · intro n hn
    rw [hparent n, if_neg ?_]
    intro hmem
    exact hn (of_decide_eq_true (List.mem_filter.mp hmem).2)
  · rw [getChildren, htracked]
    rw [List.filter_eq_nil_iff]
    intro b hb
    have hbX : b ≠ X := by simpa using (List.mem_filter.mp hb).2
    have hbt : b ∈ reg.tracked := (List.mem_filter.mp hb).1
    rw [hparent b]
    by_cases hbc : b ∈ getChildren reg X
    · simp [hbc, hgX]
    · simp only [if_neg hbc]
      intro hcontra
      exact hbc (List.mem_filter.mpr ⟨hbt, by simpa using hcontra⟩)
  · rw [htracked]
    intro h
    have : X ≠ X := of_decide_eq_true (List.mem_filter.mp h).2
    exact this rfl

/-- Concrete registry for C2's witness: `main → x → c → gc`. -/
def regC2 : Registry :=
  { tracked := ["x", "c", "gc"]
    parent := fun n =>
      if n = "x" then some "main"
      else if n = "c" then some "x"
      else if n = "gc" then some "c"
      else none }

/-- Witness for C2 at a concrete input: deleting `x` reparents `c` to
`main`, leaves the grandchild `gc` pointing at `c`, empties
`getChildren(x)` and untracks `x`. -/
theorem deleteBranchCleanly_adoption_witness :
    ("x" : String) ≠ "main" ∧ getParentBranch regC2 "x" ≠ some "x" ∧
    getParentBranch (deleteBranchCleanly regC2 "x" "c" "main" true) "c" = some "main" ∧
    getParentBranch (deleteBranchCleanly regC2 "x" "c" "main" true) "gc" = some "c" ∧
    getChildren (deleteBranchCleanly regC2 "x" "c" "main" true) "x" = [] ∧
    "x" ∉ (deleteBranchCleanly regC2 "x" "c" "main" true).tracked := by
  have hne : ∀ p, getParentBranch regC2 "x" = some p → p ≠ "" := by
    intro p hp
    have hpm : "main" = p := Option.some.inj hp
    subst hpm
    decide
  have h := deleteBranchCleanly_adoption regC2 "x" "c" "main"
    (by decide) (by decide) hne
  refine ⟨by decide, by decide, ?_, ?_, h.2.2.2.2.1, h.2.2.2.2.2⟩
  · have := h.1 "c" (by decide)
    rwa [show jsOr (getParentBranch regC2 "x") "main" = "main" from rfl] at this
  · have := h.2.2.2.1 "gc" (by decide)
    rwa [show getParentBranch regC2 "gc" = some "c" from rfl] at this

/-! ## Submit engine (`src/commands/submit.ts`) -/

/-- `PRInfo` as returned by the gh wrapper (`src/types`). -/
structure PRInfo where
  number : Nat
  title : String
  url : String
  state : String
  merged : Bool
deriving DecidableEq

/-- What `createOrUpdatePR` decides to do for one branch. -/
inductive SubmitPRAction where
  | leaveExisting (number : Nat)
  | createNewPR (title body base : String)
deriving DecidableEq

/-- `createOrUpdatePR(branchName, trunk)`: if `gh.getPRForBranch` finds a
PR, leave it (modulo the optional, confirmed description regeneration);
otherwise create one with `gh.createPR(title, body, parentBranch)` where
`parentBranch = config.getParentBranch(branchName) || trunk`. -/
def createOrUpdatePR (existingPR : Option PRInfo) (reg : Registry)
    (branchName trunk title body : String) : SubmitPRAction :=
  match existingPR with
  | some pr => .leaveExisting pr.number
  | none => .createNewPR title body (jsOr (getParentBranch reg branchName) trunk)

/-- The base branch a decision passes to `gh pr create --base`, if any. -/
def SubmitPRAction.baseBranch : SubmitPRAction → Option String
  | .leaveExisting _ => none
  | .createNewPR _ _ base => some base

/-- **C3.** For every branch submit processes that has no existing PR,
the PR is opened with base equal to the branch's recorded parent; trunk
is used as base only when no parent is recorded; the base is never trunk
when the recorded parent is a non-trunk branch. -/
theorem submit_pr_base (existingPR : Option PRInfo) (reg : Registry)
    (branchName trunk title body : String) (h : existingPR = none) :
    (∀ p, getParentBranch reg branchName = some p → p ≠ "" →
      (createOrUpdatePR existingPR reg branchName trunk title body).baseBranch =
        some p) ∧
    (getParentBranch reg branchName = none →
      (createOrUpdatePR existingPR reg branchName trunk title body).baseBranch =
        some trunk) ∧
    (∀ p, getParentBranch reg branchName = some p → p ≠ "" → p ≠ trunk →
      (createOrUpdatePR existingPR reg branchName trunk title body).baseBranch ≠
        some trunk) := by
  subst h
  refine ⟨?_, ?_, ?_⟩
  · intro p hp hpe
    simp [createOrUpdatePR, SubmitPRAction.baseBranch, jsOr, hp, hpe]
  · intro hp
    simp [createOrUpdatePR, SubmitPRAction.baseBranch, jsOr, hp]
  · intro p hp hpe hpt
    simp [createOrUpdatePR, SubmitPRAction.baseBranch, jsOr, hp, hpe, hpt]

/-- Concrete registry for C3's witness: `feat2` stacked on `feat1`. -/
def regC3 : Registry :=
  { tracked := ["feat1", "feat2"]
    parent := fun n =>
      if n = "feat1" then some "main"
      else if n = "feat2" then some "feat1"
      else none }

/-- Witness for C3 at a concrete input: a stacked branch's new PR gets
its recorded parent (not trunk) as base. -/
theorem submit_pr_base_witness :
    getParentBranch regC3 "feat2" = some "feat1" ∧
    (createOrUpdatePR none regC3 "feat2" "main" "t" "b").baseBranch = some "feat1" ∧
    (createOrUpdatePR none regC3 "feat2" "main" "t" "b").baseBranch ≠ some "main" :=
  ⟨by decide,
    (submit_pr_base none regC3 "feat2" "main" "t" "b" rfl).1 "feat1"
      (by decide) (by decide),
    (submit_pr_base none regC3 "feat2" "main" "t" "b" rfl).2.2 "feat1"
      (by decide) (by decide) (by decide)⟩

/-- What `pushBranch` decides to do for one branch. -/
inductive PushAction where
  | upstreamPush
  | forceLeasePush
  | ordinaryPush
  | noPush
deriving DecidableEq, Repr

/-- `pushBranch(branchName)`: no remote tracking ref → `push -u`;
otherwise `behind > 0` → automatic `--force-with-lease` push (no
prompt); else `ahead > 0` → plain push; else up to date, no push. -/
def pushBranch (hasRemoteTracking : Bool) (ahead behind : Nat) : PushAction :=
  if hasRemoteTracking then
    if behind > 0 then .forceLeasePush
    else if ahead > 0 then .ordinaryPush
    else .noPush
  else .upstreamPush

/-- The git command a push decision issues (`git.push(branchName,
setUpstream, force)`), if any. -/
def PushAction.cmd (branchName : String) : PushAction → Option String
  | .upstreamPush => some (pushCmd branchName true false)
  | .forceLeasePush => some (pushCmd branchName false true)
  | .ordinaryPush => some (pushCmd branchName false false)
  | .noPush => none

/-- The push phase of `submitCommand`: `for (const branchName of
branchesToSubmit) await pushBranch(branchName)` — one decision per
branch, in list (root-first) order. -/
def submitPushActions (branches : List String) (hasRemoteF : String → Bool)
    (aheadF behindF : String → Nat) : List (String × PushAction) :=
  branches.map (fun b => (b, pushBranch (hasRemoteF b) (aheadF b) (behindF b)))

/-- **C6.** Per-branch push policy, applied in root-first list order: no
remote counterpart → upstream-creating push (`git push -u origin
<name>`); remote ahead (`behind > 0`) → automatic lease-protected force
push; only locally ahead → ordinary push; in sync → no push at all.  The
push phase visits exactly the submitted branches in order. -/
theorem submit_push_policy (branchName : String) (hasRemoteTracking : Bool)
    (ahead behind : Nat) (branches : List String) (hasRemoteF : String → Bool)
    (aheadF behindF : String → Nat) :
    (hasRemoteTracking = false →
      pushBranch hasRemoteTracking ahead behind = .upstreamPush ∧
      (pushBranch hasRemoteTracking ahead behind).cmd branchName =
        some ("git push -u origin " ++ branchName)) ∧
    (hasRemoteTracking = true → behind > 0 →
      pushBranch hasRemoteTracking ahead behind = .forceLeasePush ∧
      (pushBranch hasRemoteTracking ahead behind).cmd branchName =
        some "git push --force-with-lease") ∧
    (hasRemoteTracking = true → behind = 0 → ahead > 0 →
      pushBranch hasRemoteTracking ahead behind = .ordinaryPush ∧
      (pushBranch hasRemoteTracking ahead behind).cmd branchName =
        some "git push") ∧
    (hasRemoteTracking = true → behind = 0 → ahead = 0 →
      pushBranch hasRemoteTracking ahead behind = .noPush ∧
      (pushBranch hasRemoteTracking ahead behind).cmd branchName = none) ∧
    (submitPushActions branches hasRemoteF aheadF behindF).map Prod.fst =
      branches := by
  have hup : "git " ++ ("push" ++ " -u origin " ++ branchName) =
      "git push -u origin " ++ branchName := by
    rw [← String.append_assoc, ← String.append_assoc]
    rfl
  refine ⟨?_, ?_, ?_, ?_, ?_⟩
  · intro h
    subst h
    refine ⟨rfl, ?_⟩
    simp only [pushBranch, PushAction.cmd, pushCmd, execGit, if_true,
      Bool.false_eq_true, if_false, if_neg]
    rw [hup]
  · intro h hbehind
    subst h
    have : pushBranch true ahead behind = .forceLeasePush := by
      simp [pushBranch, hbehind]
    exact ⟨this, by rw [this]; rfl⟩
  · intro h hbehind hahead
    subst h
    have : pushBranch true ahead behind = .ordinaryPush := by
      simp [pushBranch, hbehind, hahead]
    exact ⟨this, by rw [this]; rfl⟩
  · intro h hbehind hahead
    subst h
    have : pushBranch true ahead behind = .noPush := by
      simp [pushBranch, hbehind, hahead]
    exact ⟨this, by rw [this]; rfl⟩
  · rw [submitPushActions]
    induction branches with
    | nil => rfl
    | cons a l ih => simp only [List.map_cons]; rw [ih]

/-- Witness for C6 at a concrete input. -/
theorem submit_push_policy_witness :
    (pushBranch false 1 0 = .upstreamPush ∧
      (pushBranch false 1 0).cmd "feat" = some ("git push -u origin " ++ "feat")) ∧
    (pushBranch true 3 2 = .forceLeasePush ∧
      (pushBranch true 3 2).cmd "feat" = some "git push --force-with-lease") :=
  ⟨(submit_push_policy "feat" false 1 0 [] (fun _ => false) (fun _ => 0)
      (fun _ => 0)).1 rfl,
    (submit_push_policy "feat" true 3 2 [] (fun _ => false) (fun _ => 0)
      (fun _ => 0)).2.1 rfl (by decide)⟩

/-! ## Raw tracked-set persistence (`src/lib/config.ts`)

The tracked set is stored as a single comma-joined string under the
`flowgit.tracked` config key.  `store` is the stored value (`none` = key
unset, which `getConfig`'s catch turns into `null`). -/

/-- Failure modes of `restack(branch, explicitTarget?)` (§7 taxonomy). -/
inductive RestackError where
  | cannotRestackTrunk
  | selfReparent
  | targetNotFound
  | rebaseConflict
deriving DecidableEq, Repr

/-- Modelled from the spec: the validation-and-reparent phase of
`restack(branch, explicitTarget?)` (§4.2), whose implementation is
missing from the provided sources.  Fails with `CannotRestackTrunk` when
`branch == trunk`; resolves `parent := explicitTarget ?? getParent(branch)
?? trunk`; when the explicit target differs from the recorded parent it
fails with `SelfReparent` if `explicitTarget == branch`, with
`TargetNotFound` if the target branch does not exist, and otherwise
persists the new parent pointer and ensures `branch` is tracked — all
before any rebase. -/
def restackResolve (reg : Registry) (branch : String) (explicitTarget : Option String)
    (trunk : String) (branchExistsF : String → Bool) :
    Except RestackError (Registry × String) :=
  if branch = trunk then .error .cannotRestackTrunk
  else
    match explicitTarget with
    | none => .ok (reg, jsOr (getParentBranch reg branch) trunk)
    | some t =>
      if getParentBranch reg branch = some t then .ok (reg, t)
      else if t = branch then .error .selfReparent
      else if branchExistsF t = false then .error .targetNotFound
      else .ok (addTracked (setParentBranch reg branch t) branch, t)

/-- Modelled from the spec: `restack` runs the resolve/reparent phase and
then rebases `branch` onto the resolved parent; a rebase conflict is
fatal but nothing already persisted is rolled back.  Returns the final
registry and the error, if any. -/
def restackModel (reg : Registry) (branch : String) (explicitTarget : Option String)
    (trunk : String) (branchExistsF : String → Bool) (rebaseOk : Bool) :
    Registry × Option RestackError :=
  match restackResolve reg branch explicitTarget trunk branchExistsF with
  | .error e => (reg, some e)
  | .ok (reg', _) => if rebaseOk then (reg', none) else (reg', some .rebaseConflict)

/-- **C4.** With an explicit target equal to the branch itself, restack
always fails with `SelfReparent` and leaves the registry unmutated; with
a (different) target that does not exist it fails with `TargetNotFound`
and leaves the registry unmutated; with an existing target that differs
from the recorded parent, the new parent pointer is persisted and the
branch is tracked in the resulting registry even when the subsequent
rebase fails — i.e. before any rebase is attempted. -/
theorem restack_reparent_contract (reg : Registry) (branch trunk : String)
    (branchExistsF : String → Bool) (rebaseOk : Bool)
    (hself : getParentBranch reg branch ≠ some branch) (hbt : branch ≠ trunk) :
    (restackModel reg branch (some branch) trunk branchExistsF rebaseOk =
      (reg, some .selfReparent)) ∧
    (∀ t, t ≠ branch → getParentBranch reg branch ≠ some t →
      branchExistsF t = false →
      restackModel reg branch (some t) trunk branchExistsF rebaseOk =
        (reg, some .targetNotFound)) ∧
    (∀ t, t ≠ branch → getParentBranch reg branch ≠ some t →
      branchExistsF t = true →
      getParentBranch
        (restackModel reg branch (some t) trunk branchExistsF rebaseOk).1 branch =
          some t ∧
      branch ∈
        (restackModel reg branch (some t) trunk branchExistsF rebaseOk).1.tracked) := by
  refine ⟨?_, ?_, ?_⟩
  · rw [restackModel, restackResolve, if_neg hbt]
    simp only [if_neg hself, if_pos rfl]
    simp
  · intro t ht hp hex
    rw [restackModel, restackResolve, if_neg hbt]
    simp only [if_neg hp, if_neg (fun h => ht h), hex, if_pos rfl]
    simp
  · intro t ht hp hex
    have hresolve : restackResolve reg branch (some t) trunk branchExistsF =
        .ok (addTracked (setParentBranch reg branch t) branch, t) := by
      rw [restackResolve, if_neg hbt]
      simp only [if_neg hp, if_neg (fun h => ht h), hex]
      simp
    have hreg1 : (restackModel reg branch (some t) trunk branchExistsF rebaseOk).1 =
        addTracked (setParentBranch reg branch t) branch := by
      rw [restackModel, hresolve]
      rcases rebaseOk <;> rfl
    rw [hreg1]
    constructor
    · have hparent : getParentBranch (addTracked (setParentBranch reg branch t) branch)
          branch = getParentBranch (setParentBranch reg branch t) branch := by
        rw [addTracked]
        rcases h : decide (branch ∈ (setParentBranch reg branch t).tracked) with _ | _
        · rw [if_neg (of_decide_eq_false h)]; rfl
        · rw [if_pos (of_decide_eq_true h)]
      rw [hparent, getParentBranch, setParentBranch]
      simp
    · rw [addTracked]
      by_cases h : branch ∈ (setParentBranch reg branch t).tracked
      · rwa [if_pos h]
      · rw [if_neg h]
        simp [setParentBranch]

/-- Concrete inputs for C4's witness: `feature` with recorded parent
`dev`, reparented onto existing `main` while the rebase conflicts. -/
def regC4 : Registry :=
  { tracked := ["feature"]
    parent := fun n => if n = "feature" then some "dev" else none }

/-- Witness for C4 at concrete inputs. -/
theorem restack_reparent_contract_witness :
    restackModel regC4 "feature" (some "feature") "main"
        (fun b => b = "main" || b = "feature") false =
      (regC4, some .selfReparent) ∧
    restackModel regC4 "feature" (some "ghost") "main"
        (fun b => b = "main" || b = "feature") false =
      (regC4, some .targetNotFound) ∧
    getParentBranch
      (restackModel regC4 "feature" (some "main") "main"
        (fun b => b = "main" || b = "feature") false).1 "feature" = some "main" ∧
    "feature" ∈
      (restackModel regC4 "feature" (some "main") "main"
        (fun b => b = "main" || b = "feature") false).1.tracked :=
  ⟨(restack_reparent_contract regC4 "feature" "main"
      (fun b => b = "main" || b = "feature") false (by decide) (by decide)).1,
    (restack_reparent_contract regC4 "feature" "main"
      (fun b => b = "main" || b = "feature") false (by decide) (by decide)).2.1
      "ghost" (by decide) (by decide) (by decide),
    ((restack_reparent_contract regC4 "feature" "main"
      (fun b => b = "main" || b = "feature") false (by decide) (by decide)).2.2
      "main" (by decide) (by decide) (by decide)).1,
    ((restack_reparent_contract regC4 "feature" "main"
      (fun b => b = "main" || b = "feature") false (by decide) (by decide)).2.2
      "main" (by decide) (by decide) (by decide)).2⟩

end Flowgit
